import Mathlib

/-!
# Verification of the quote-image rendering pipeline

Shallow embedding of the rendering pipeline of `src/main.py`
(`fit_text`, manual word wrap, vertical layout, gradient background,
`render_quote_svg`, and the raster-with-SVG-fallback dispatch in
`serve_quote_image`), together with theorems settling the frozen claims
about it.

Python strings are modelled as Lean `String` / `List Char`; Python `int`
arithmetic that can go negative (e.g. `(len(lines) - 1) * 10`,
`(height - total) // 2`) is modelled on `Int` with `Int.fdiv` for the Python
floor division.  Pillow text measurement (`draw.textsize`,
`draw.multiline_textsize`) is an external font-metric oracle and is
modelled as an abstract `Metrics` argument.  `random.choice(GRADIENTS)`
is modelled as an explicit palette index argument.  Quantities computed
in Python with float literals (`int(width * 0.08)` etc.) are modelled
with exact rational arithmetic truncated to integers.
-/

namespace QuoteMachine

/-- Python `str.isspace` characters relevant to `str.split()` /
`str.strip()` (ASCII approximation: space, tab, newline, carriage return,
vertical tab, form feed). -/
def py_isspace (c : Char) : Bool :=
  c == ' ' || c == '\t' || c == '\n' || c == '\r' || c == '\x0b' || c == '\x0c'

/-- Negation of `py_isspace`: a non-whitespace (word) character. -/
def notSp (c : Char) : Bool := !(py_isspace c)

/-- Test that `pat` is a leading segment of `l` (Boolean test, used to model
Python substring matching at the head of a string). -/
def leadsWith : List Char → List Char → Bool
  | [], _ => true
  | _ :: _, [] => false
  | a :: as, b :: bs => a == b && leadsWith as bs

/-- Dropping a whitespace run never lengthens a list. -/
theorem dropWhile_length_le {α : Type} (p : α → Bool) (l : List α) :
    (l.dropWhile p).length ≤ l.length := by
  induction l with
  | nil => simp
  | cons x xs ih =>
    by_cases hx : p x <;> simp [List.dropWhile_cons, hx] <;> omega

/-- The head surviving a `dropWhile` falsifies the predicate. -/
theorem dropWhile_head_false {α : Type} (p : α → Bool) (l : List α) {c : α}
    {rest : List α} (h : l.dropWhile p = c :: rest) : p c = false := by
  induction l with
  | nil => simp [List.dropWhile] at h
  | cons x xs ih =>
    by_cases hx : p x
    · rw [List.dropWhile_cons, if_pos hx] at h
      exact ih h
    · rw [List.dropWhile_cons, if_neg hx] at h
      injection h with h1 _
      subst h1
      simpa using hx

/-- Python `s.replace(pat, rep)`: scan left to right, replacing each
(non-overlapping, leftmost) occurrence of `pat` by `rep` and continuing
after the replacement.  (For the empty pattern the scan never consumes
input, a case the source never exercises; we leave the string unchanged.) -/
def pyReplace (s : List Char) (pat rep : List Char) : List Char :=
  match s with
  | [] => []
  | c :: rest =>
    if h : pat ≠ [] ∧ leadsWith pat (c :: rest) = true then
      rep ++ pyReplace ((c :: rest).drop pat.length) pat rep
    else
      c :: pyReplace rest pat rep
termination_by s.length
decreasing_by
  · simp only [List.length_drop, List.length_cons]
    have : pat.length ≠ 0 := fun hz => h.1 (List.eq_nil_of_length_eq_zero hz)
    omega
  · simp

/-- The function `esc` from `render_quote_svg` (src/main.py lines 148-149), on char
lists:
`s.replace("&", "&amp;").replace("<", "&lt;").replace(">", "&gt;")`. -/
def escL (s : List Char) : List Char :=
  pyReplace (pyReplace (pyReplace s "&".data "&amp;".data) "<".data "&lt;".data)
    ">".data "&gt;".data

/-- The function `esc` on Lean strings. -/
def esc (s : String) : String := ⟨escL s.data⟩

/-- Character-level view of the escaping: what a single character becomes
in the escaped output. -/
def escChar (c : Char) : List Char :=
  if c = '&' then "&amp;".data
  else if c = '<' then "&lt;".data
  else if c = '>' then "&gt;".data
  else [c]

/-- Modelled from the spec: "decoding the entities reconstructs original
text".  Greedy left-to-right decoder replacing the markup entities
`&amp;`, `&lt;`, `&gt;` by the characters they stand for. -/
def decodeEntities (l : List Char) : List Char :=
  match l with
  | [] => []
  | c :: rest =>
    if leadsWith "&amp;".data (c :: rest) then '&' :: decodeEntities ((c :: rest).drop 5)
    else if leadsWith "&lt;".data (c :: rest) then '<' :: decodeEntities ((c :: rest).drop 4)
    else if leadsWith "&gt;".data (c :: rest) then '>' :: decodeEntities ((c :: rest).drop 4)
    else c :: decodeEntities rest
termination_by l.length
decreasing_by all_goals (simp only [List.length_drop, List.length_cons]; omega)

/-- Python `s.strip()` on char lists: drop whitespace from both ends. -/
def pyStripL (l : List Char) : List Char :=
  ((l.dropWhile py_isspace).reverse.dropWhile py_isspace).reverse

/-- Python `s.strip()`. -/
def pyStrip (s : String) : String := ⟨pyStripL s.data⟩

/-- Python `text.split()` on char lists: skip a whitespace run, then take
a maximal non-whitespace word, and repeat; empty tokens never occur. -/
def pySplitL (l : List Char) : List (List Char) :=
  if h : l.dropWhile py_isspace = [] then []
  else
    ((l.dropWhile py_isspace).takeWhile notSp) ::
      pySplitL ((l.dropWhile py_isspace).dropWhile notSp)
termination_by l.length
decreasing_by
  obtain ⟨c, rest, hd⟩ : ∃ c rest, l.dropWhile py_isspace = c :: rest := by
    cases hcase : l.dropWhile py_isspace with
    | nil => exact absurd hcase h
    | cons c rest => exact ⟨c, rest, rfl⟩
  have hc : notSp c = true := by
    simp [notSp, dropWhile_head_false py_isspace l hd]
  have h1 := dropWhile_length_le notSp rest
  have h2 := dropWhile_length_le py_isspace l
  rw [hd] at h2 ⊢
  rw [List.dropWhile_cons, if_pos hc]
  simp only [List.length_cons] at h2
  omega

/-- Python `text.split()`. -/
def pySplit (s : String) : List String :=
  (pySplitL s.data).map (fun l => ⟨l⟩)

/-- Modelled from the words of claim C10: collapse every whitespace
run of an already left-trimmed string to a single space, discarding a
trailing run. -/
def collapseRun (l : List Char) : List Char :=
  match l with
  | [] => []
  | c :: rest =>
    if py_isspace c then
      if rest.dropWhile py_isspace = [] then []
      else ' ' :: collapseRun (rest.dropWhile py_isspace)
    else c :: collapseRun rest
termination_by l.length
decreasing_by
  · have h1 := dropWhile_length_le py_isspace rest
    simp only [List.length_cons]
    omega
  · simp

/-- Modelled from the words of claim C10: the input text with all
whitespace runs collapsed to single spaces and leading/trailing
whitespace removed. -/
def spec_collapse_ws (s : String) : String :=
  ⟨collapseRun (s.data.dropWhile py_isspace)⟩

/-- Join a list of strings with single spaces (Python
`" ".join(...)`-style); used to state which strings the word wrap can
produce as lines. -/
def joinW : List String → String
  | [] => ""
  | [w] => w
  | w :: ws => w ++ " " ++ joinW ws

/-- Mirror of `joinW` on char lists. -/
def charJoin : List (List Char) → List Char
  | [] => []
  | [w] => w
  | w :: ws => w ++ ' ' :: charJoin ws

/-! ## Constants of src/main.py (lines 26-43) -/

def DEFAULT_WIDTH : Nat := 1200

def DEFAULT_HEIGHT : Nat := 1500

/-- Constant `SAFE_BEIGE = (238, 232, 223)`. -/
def SAFE_BEIGE : Nat × Nat × Nat := (238, 232, 223)

/-- Constant `GRADIENTS`: the fixed palette of (top, bottom) RGB pairs. -/
def GRADIENTS : List ((Nat × Nat × Nat) × (Nat × Nat × Nat)) :=
  [((245, 240, 232), (222, 203, 182)),
   ((250, 242, 234), (221, 214, 200)),
   ((240, 235, 226), (210, 200, 190)),
   ((255, 247, 240), (232, 222, 210))]

def BOLD_FONTS : List String :=
  ["/usr/share/fonts/truetype/dejavu/DejaVuSans-Bold.ttf",
   "/usr/share/fonts/truetype/dejavu/DejaVuSerif-Bold.ttf"]

def LIGHT_FONTS : List String :=
  ["/usr/share/fonts/truetype/dejavu/DejaVuSans.ttf",
   "/usr/share/fonts/truetype/dejavu/DejaVuSerif.ttf"]

/-! ## Raster renderer (render_quote_image_with_pil, lines 68-140) -/

/-- Abstract Pillow font metrics: `draw.textsize(text, font)` and
`draw.multiline_textsize(text, font=font, spacing=8)`, as functions of
the font file path, the font size and the measured text, returning a
(width, height) pair of pixels. -/
structure Metrics where
  textsize : String → Nat → String → Nat × Nat
  multiline_textsize : String → Nat → String → Nat × Nat

/-- A `draw.text((x, y), s, font=..., fill=...)` call recorded
symbolically (coordinates on `Int`: Python subtraction can go negative). -/
structure TextOp where
  x : Int
  y : Int
  s : String
  fontPath : String
  fontSize : Nat
  fill : Nat × Nat × Nat
deriving DecidableEq

/-- The composed canvas of one raster-rendering call, before PNG
encoding: the per-scanline gradient colors and the recorded text draws.
The PNG bytes returned by the source are a function of this canvas, so
two calls with equal `RasterRender`s return identical bytes. -/
structure RasterRender where
  width : Nat
  height : Nat
  backgroundRows : List (Nat × Nat × Nat)
  quoteOps : List TextOp
  authorOp : Option TextOp
  watermarkOp : Option TextOp
  mime : String
deriving DecidableEq

/-- Python truthiness of the `author` value (`if author:`): `None` and
the empty string are both falsy. -/
def authorTruthy : Option String → Bool
  | none => false
  | some a => a != ""

/-- Font resolution `next((f for f in fonts if os.path.exists(f)), fonts[0])`:
first existing candidate font path, else the first candidate.
`fsExists` abstracts `os.path.exists`. -/
def pick_font (fonts : List String) (fsExists : String → Bool) : String :=
  (fonts.find? fsExists).getD (fonts.headD "")

/-- One scanline color of `draw_vertical_gradient` (lines 71-78):
`int(top * (1 - y/height) + bottom * (y/height))` per channel, modelled
with exact rational arithmetic truncated to integer. -/
def gradient_row_color (top bottom : Nat × Nat × Nat) (height y : Nat) :
    Nat × Nat × Nat :=
  ((top.1 * (height - y) + bottom.1 * y) / height,
   (top.2.1 * (height - y) + bottom.2.1 * y) / height,
   (top.2.2 * (height - y) + bottom.2.2 * y) / height)

/-- Loop of `draw_vertical_gradient`: one `draw.line` color per row
`y in range(height)`. -/
def draw_vertical_gradient (top bottom : Nat × Nat × Nat) (height : Nat) :
    List (Nat × Nat × Nat) :=
  (List.range height).map (gradient_row_color top bottom height)

/-- Search `fit_text` (lines 80-88): starting from `max_font_size`, decrease the
size by 2 while it stays above 18, returning the first size whose
measured multiline width fits within `max_width`; fall back to 18.
`measure size` abstracts
`draw.multiline_textsize(text, font=truetype(font_path, size), spacing=8)[0]`. -/
def fit_text (measure : Nat → Nat) (max_width : Nat) (size : Nat) : Nat :=
  if 18 < size then
    if measure size ≤ max_width then size
    else fit_text measure max_width (size - 2)
  else 18
termination_by size

/-- One step of the manual wrap loop (lines 107-115).  The source forms
`test = (current + " " + w).strip()`; tokens produced by `text.split()`
are nonempty and whitespace-free, so the strip only removes the leading
space when `current` is empty, which is the case split below. -/
def wrapStep (measure : String → Nat) (max_text_width : Nat)
    (acc : List String × String) (w : String) : List String × String :=
  let test := if acc.2 = "" then w else acc.2 ++ " " ++ w
  if measure test ≤ max_text_width then (acc.1, test)
  else if acc.2 = "" then (acc.1, w)
  else (acc.1 ++ [acc.2], w)

/-- The manual wrap (lines 104-117): fold the loop over the words of the
text and commit the trailing `current` if nonempty.
`measure s` abstracts `draw.textsize(s, font=quote_font)[0]`. -/
def wrapLines (measure : String → Nat) (max_text_width : Nat)
    (words : List String) : List String :=
  let r := words.foldl (wrapStep measure max_text_width) ([], "")
  if r.2 = "" then r.1 else r.1 ++ [r.2]

/-- Value `total_text_height` (line 119):
`sum(draw.textsize(line, font)[1] for line in lines) + (len(lines) - 1) * 10`.
Python `int` arithmetic: for zero lines this is `-10`, so the value lives
on `Int`. -/
def quote_block_height (M : Metrics) (path : String) (size : Nat)
    (lines : List String) : Int :=
  (lines.map (fun l => ((M.textsize path size l).2 : Int))).sum
    + ((lines.length : Int) - 1) * 10

/-- One iteration of the drawing loop over wrapped lines (lines 122-126):
the line is drawn at `x = (width - lw) // 2` and the running `y`, which
then advances by `lh + 10`. -/
def draw_step (M : Metrics) (path : String) (size width : Nat)
    (acc : List TextOp × Int) (line : String) : List TextOp × Int :=
  (acc.1 ++
    [{ x := Int.fdiv ((width : Int) - ((M.textsize path size line).1 : Int)) 2,
       y := acc.2, s := line, fontPath := path, fontSize := size,
       fill := (30, 30, 30) }],
   acc.2 + ((M.textsize path size line).2 : Int) + 10)

/-- The drawing loop over wrapped lines (lines 121-126): returns the
recorded draws and the final `y`. -/
def draw_quote_lines (M : Metrics) (path : String) (size width : Nat)
    (y0 : Int) (lines : List String) : List TextOp × Int :=
  lines.foldl (draw_step M path size width) ([], y0)

/-- Margin `margin = int(width * 0.08)`. -/
def margin_of (width : Nat) : Nat := width * 8 / 100

/-- Usable width `max_text_width = width - margin * 2`. -/
def max_text_width_of (width : Nat) : Nat := width - margin_of width * 2

/-- The bold font path chosen for the quote body. -/
def quote_font_path (fsExists : String → Bool) : String :=
  pick_font BOLD_FONTS fsExists

/-- The light font path chosen for author and watermark. -/
def light_font_path (fsExists : String → Bool) : String :=
  pick_font LIGHT_FONTS fsExists

/-- The quote font size chosen by the renderer (line 101):
`fit_text(draw, text, font_bold_path, max_text_width, int(width * 0.10))`. -/
def quote_size_of (M : Metrics) (fsExists : String → Bool) (text : String)
    (width : Nat) : Nat :=
  fit_text (fun size => (M.multiline_textsize (quote_font_path fsExists) size text).1)
    (max_text_width_of width) (width * 10 / 100)

/-- The wrapped lines computed by the renderer (lines 104-117). -/
def quote_lines (M : Metrics) (fsExists : String → Bool) (text : String)
    (width : Nat) : List String :=
  wrapLines
    (fun s => (M.textsize (quote_font_path fsExists) (quote_size_of M fsExists text width) s).1)
    (max_text_width_of width) (pySplit text)

/-- The renderer `render_quote_image_with_pil` (lines 68-140).  The externals —
Pillow metrics `M`, `os.path.exists` as `fsExists`, and the
`random.choice(GRADIENTS)` selection as the palette index `gidx` — are
explicit arguments; everything else follows the source line by line.
The result stands for the `(buf.getvalue(), "image/png")` pair: the PNG
bytes are the (deterministic) encoding of the composed canvas. -/
def render_quote_image_with_pil (M : Metrics) (fsExists : String → Bool)
    (gidx : Fin GRADIENTS.length) (text : String) (author : Option String)
    (watermark : Bool) (quality : String)
    (width : Nat := DEFAULT_WIDTH) (height : Nat := DEFAULT_HEIGHT) :
    RasterRender :=
  let g := GRADIENTS.get gidx
  let rows := draw_vertical_gradient g.1 g.2 height
  let font_bold_path := quote_font_path fsExists
  let font_light_path := light_font_path fsExists
  let margin := margin_of width
  let quote_size := quote_size_of M fsExists text width
  let author_size := width * 35 / 1000
  let lines := quote_lines M fsExists text width
  let total_text_height := quote_block_height M font_bold_path quote_size lines
  let y0 := Int.fdiv ((height : Int) - total_text_height) 2
  let drawn := draw_quote_lines M font_bold_path quote_size width y0 lines
  let authorOp :=
    if authorTruthy author then
      let astr := "— " ++ author.getD ""
      let aw := (M.textsize font_light_path author_size astr).1
      some { x := Int.fdiv ((width : Int) - (aw : Int)) 2,
             y := drawn.2 + (height * 2 / 100 : Nat),
             s := astr, fontPath := font_light_path, fontSize := author_size,
             fill := (60, 60, 60) }
    else none
  let watermarkOp :=
    if watermark then
      let wm_size := width * 35 / 1000
      let wm_text := "ViralQuoteMachine.com"
      let tw := (M.textsize font_light_path wm_size wm_text).1
      let th := (M.textsize font_light_path wm_size wm_text).2
      some { x := (width : Int) - (tw : Int) - (margin : Int),
             y := (height : Int) - (th : Int) - (margin : Int),
             s := wm_text, fontPath := font_light_path, fontSize := wm_size,
             fill := (80, 80, 80) }
    else none
  { width := width, height := height, backgroundRows := rows,
    quoteOps := drawn.1, authorOp := authorOp, watermarkOp := watermarkOp,
    mime := "image/png" }

/-! ## Vector renderer (render_quote_svg, lines 143-174)

The f-string template is reproduced verbatim (single quotes written as
the escape `\x27`), regrouped by string-append associativity around the
three interpolated user-controlled pieces so the theorems can name the
surrounding segments.  `"""...""" .strip()` is modelled by `pyStrip`
applied to the leading/trailing `"\n    "` of the template. -/

def svg_bg : String := "#F5EFE6"

def svg_fg : String := "#2e2a27"

def svg_sub : String := "#4b463f"

/-- Literal segments of the `author_text` f-string (line 151). -/
def svg_author_lit1 : String := "<text x=\x2750%\x27 y=\x2765%\x27 fill=\x27"

def svg_author_lit2 : String :=
  "\x27 font-family=\x27sans-serif\x27 font-size=\x2736\x27 text-anchor=\x27middle\x27>— "

/-- The `author_text` value (line 151): present only when `author` is
truthy, shows `— {esc(author)}`. -/
def author_text (author : Option String) : String :=
  match author with
  | none => ""
  | some a =>
    if a = "" then ""
    else svg_author_lit1 ++ svg_sub ++ svg_author_lit2 ++ esc a ++ "</text>"

/-- The `wm` value (lines 152-154): the fixed brand string, bottom-right,
when the watermark is enabled. -/
def wm_markup (watermark : Bool) (width height : Nat) : String :=
  if watermark then
    "<text x=\x27" ++ toString ((width : Int) - 40) ++ "\x27 y=\x27" ++
      toString ((height : Int) - 40) ++ "\x27 fill=\x27" ++ svg_sub ++
      "\x27 font-family=\x27sans-serif\x27 font-size=\x2736\x27 text-anchor=\x27end\x27>ViralQuoteMachine.com</text>"
  else ""

/-- Literal template segments of the f-string, in source order. -/
def svg_lit1 : String := "<svg xmlns=\x27http://www.w3.org/2000/svg\x27 width=\x27"

def svg_lit2 : String := "\x27 height=\x27"

def svg_lit3 : String := "\x27 viewBox=\x270 0 "

def svg_lit4 : String :=
  "\x27>\n      <defs>\n        <linearGradient id=\x27g\x27 x1=\x270\x27 y1=\x270\x27 x2=\x270\x27 y2=\x271\x27>\n          <stop offset=\x270%\x27 stop-color=\x27#faf2ea\x27/>\n          <stop offset=\x27100%\x27 stop-color=\x27#e5d8c9\x27/>\n        </linearGradient>\n      </defs>\n      <rect width=\x27100%\x27 height=\x27100%\x27 fill=\x27url(#g)\x27/>\n      <foreignObject x=\x2780\x27 y=\x2720%\x27 width=\x27"

def svg_lit5 : String :=
  "\x27 height=\x2750%\x27>\n        <div xmlns=\x27http://www.w3.org/1999/xhtml\x27 style=\x27font-family:sans-serif;color:"

def svg_lit6 : String :=
  ";font-size:64px;line-height:1.2;text-align:center;font-weight:800;\x27>\n          "

/-- Template text from `<svg` up to the whitespace right before
`{esc(text)}`. -/
def svg_before_text (width height : Nat) : String :=
  svg_lit1 ++ toString width ++ svg_lit2 ++ toString height ++ svg_lit3 ++
    toString width ++ " " ++ toString height ++ svg_lit4 ++
    toString ((width : Int) - 160) ++ svg_lit5 ++ svg_fg ++ svg_lit6

/-- Template text between `{esc(text)}` and `{author_text}`. -/
def svg_between_text_author : String :=
  "\n        </div>\n      </foreignObject>\n      "

/-- Template text between `{author_text}` and `{wm}`. -/
def svg_between_author_wm : String := "\n      "

/-- Template text after `{wm}`. -/
def svg_after_wm : String := "\n    </svg>"

/-- The body of the f-string template between its leading and trailing
`"\n    "` (the part `strip()` keeps). -/
def svg_core (text : String) (author : Option String) (watermark : Bool)
    (width height : Nat) : String :=
  svg_before_text width height ++ esc text ++ svg_between_text_author ++
    author_text author ++ svg_between_author_wm ++
    wm_markup watermark width height ++ svg_after_wm

/-- The SVG document `render_quote_svg` builds: the raw triple-quoted
f-string (leading newline+indent, body, trailing newline+indent), then
`.strip()`. -/
def render_quote_svg_string (text : String) (author : Option String)
    (watermark : Bool) (width height : Nat) : String :=
  pyStrip ("\n    " ++ svg_core text author watermark width height ++ "\n    ")

/-- UTF-8 bytes of a string, as naturals (`svg.encode("utf-8")`). -/
def utf8Bytes (s : String) : List Nat :=
  s.toUTF8.toList.map (fun b => b.toNat)

/-- The fallback `render_quote_svg` (lines 143-174): the `(bytes, mime)` pair
`(svg.encode("utf-8"), "image/svg+xml")`. -/
def render_quote_svg (text : String) (author : Option String)
    (watermark : Bool) (width : Nat := 1200) (height : Nat := 1500) :
    List Nat × String :=
  (utf8Bytes (render_quote_svg_string text author watermark width height),
   "image/svg+xml")

/-! ## Dispatch (serve_quote_image, lines 313-332)

The raster attempt is `rasterAttempt : Option (List Nat × String)`:
`some` is a successful `(bytes, mime)` return of the Pillow path, `none`
is any raised exception (missing fonts, drawing failure, ...); the
`pil_available()` probe is the Boolean `pilAvailable`.  The source tries
the raster path only when PIL is importable, swallows every raster
exception, and otherwise (or on failure) returns the SVG result. -/

def serve_quote_image (pilAvailable : Bool)
    (rasterAttempt : Option (List Nat × String)) (text : String)
    (author : Option String) (watermark : Bool) : List Nat × String :=
  match (if pilAvailable then rasterAttempt else none) with
  | some r => r
  | none => render_quote_svg text author watermark

/-! ## Concrete instances for witnesses and counterexamples -/

/-- A concrete font-metric oracle: width = `len(text) * size`,
height = `size` (any metrics work; the claims are metric-generic). -/
def M0 : Metrics :=
  { textsize := fun _ size s => (s.length * size, size),
    multiline_textsize := fun _ size s => (s.length * size, size) }

/-- A filesystem on which every font path exists. -/
def fs0 : String → Bool := fun _ => true

/-! ## Generic helper lemmas -/

theorem mk_data (l : List Char) : (⟨l⟩ : String).data = l := rfl

theorem str_data_inj {a b : String} (h : a.data = b.data) : a = b := by
  cases a
  cases b
  exact congrArg String.mk h

theorem str_data_nil_iff {a : String} : a.data = [] ↔ a = "" := by
  constructor
  · intro h
    exact str_data_inj (by simpa using h)
  · intro h
    subst h
    rfl

theorem append_ne_empty_left {a : String} (b : String) (ha : a ≠ "") :
    a ++ b ≠ "" := by
  intro h
  have hd : (a ++ b).data = [] := by simp [h]
  rw [String.data_append] at hd
  exact ha (str_data_nil_iff.mp (List.append_eq_nil.mp hd).1)

theorem joinW_cons_cons (w x : String) (xs : List String) :
    joinW (w :: x :: xs) = w ++ " " ++ joinW (x :: xs) := rfl

theorem joinW_append_single (g : List String) (x : String) (hg : g ≠ []) :
    joinW (g ++ [x]) = joinW g ++ " " ++ x := by
  induction g with
  | nil => exact absurd rfl hg
  | cons a t ih =>
    cases t with
    | nil => rfl
    | cons b t2 =>
      have e1 : (a :: b :: t2) ++ [x] = a :: ((b :: t2) ++ [x]) := rfl
      have e2 : (b :: t2) ++ [x] = b :: (t2 ++ [x]) := rfl
      rw [e1, e2, joinW_cons_cons, ← e2, ih (by simp), joinW_cons_cons]
      simp [String.append_assoc]

theorem joinW_append (a b : List String) (ha : a ≠ []) (hb : b ≠ []) :
    joinW (a ++ b) = joinW a ++ " " ++ joinW b := by
  induction a with
  | nil => exact absurd rfl ha
  | cons x t ih =>
    cases t with
    | nil =>
      cases b with
      | nil => exact absurd rfl hb
      | cons y s => rfl
    | cons z t2 =>
      have e1 : (x :: z :: t2) ++ b = x :: ((z :: t2) ++ b) := rfl
      have e2 : (z :: t2) ++ b = z :: (t2 ++ b) := rfl
      rw [e1, e2, joinW_cons_cons, ← e2, ih (by simp), joinW_cons_cons]
      simp [String.append_assoc]

theorem flatten_ne_nil {α : Type} (g : List α) (gs : List (List α)) (hg : g ≠ []) :
    (g :: gs).flatten ≠ [] := by
  simp only [List.flatten_cons]
  intro h
  exact hg (List.append_eq_nil.mp h).1

theorem joinW_map_joinW (gs : List (List String)) (h : ∀ g ∈ gs, g ≠ []) :
    joinW (gs.map joinW) = joinW gs.flatten := by
  induction gs with
  | nil => rfl
  | cons g rest ih =>
    cases rest with
    | nil => simp [joinW]
    | cons g2 rest2 =>
      have hg : g ≠ [] := h g (by simp)
      have hrest : ∀ x ∈ g2 :: rest2, x ≠ [] := fun x hx => h x (by simp [hx])
      have hflat : (g2 :: rest2).flatten ≠ [] :=
        flatten_ne_nil g2 rest2 (hrest g2 (by simp))
      calc joinW ((g :: g2 :: rest2).map joinW)
          = joinW g ++ " " ++ joinW ((g2 :: rest2).map joinW) := rfl
        _ = joinW g ++ " " ++ joinW (g2 :: rest2).flatten := by rw [ih hrest]
        _ = joinW (g ++ (g2 :: rest2).flatten) := by
              rw [joinW_append g _ hg hflat]
        _ = joinW ((g :: g2 :: rest2).flatten) := rfl

theorem joinW_map_mk (gs : List (List Char)) :
    (joinW (gs.map (fun l => (⟨l⟩ : String)))).data = charJoin gs := by
  induction gs with
  | nil => rfl
  | cons g rest ih =>
    cases rest with
    | nil => rfl
    | cons g2 rest2 =>
      have h1 : joinW ((g :: g2 :: rest2).map (fun l => (⟨l⟩ : String)))
          = (⟨g⟩ : String) ++ " " ++ joinW ((g2 :: rest2).map (fun l => (⟨l⟩ : String))) := rfl
      have h2 : charJoin (g :: g2 :: rest2) = g ++ ' ' :: charJoin (g2 :: rest2) := rfl
      rw [h1, String.data_append, String.data_append, ih, h2]
      simp

/-! ## The escaping and its round-trip (C5) -/

theorem pyReplace_single (p : Char) (rep : List Char) (s : List Char) :
    pyReplace s [p] rep = s.flatMap (fun c => if c = p then rep else [c]) := by
  induction s with
  | nil => rw [pyReplace]; rfl
  | cons c rest ih =>
    rw [pyReplace]
    by_cases hc : c = p
    · subst hc
      have hcond : ([c] ≠ ([] : List Char)) ∧ leadsWith [c] (c :: rest) = true := by
        refine ⟨by simp, ?_⟩
        simp [leadsWith]
      rw [dif_pos hcond]
      simp only [List.length_cons, List.length_nil, List.drop_succ_cons, List.drop_zero]
      rw [ih]
      simp
    · have hcond : ¬(([p] ≠ ([] : List Char)) ∧ leadsWith [p] (c :: rest) = true) := by
        intro hcontra
        have := hcontra.2
        simp [leadsWith] at this
        exact hc this.symm
      rw [dif_neg hcond, ih]
      simp [hc]

theorem flatMap_ext {α β : Type} (s : List α) (f g : α → List β)
    (h : ∀ c ∈ s, f c = g c) : s.flatMap f = s.flatMap g := by
  induction s with
  | nil => rfl
  | cons c rest ih =>
    simp only [List.flatMap_cons]
    rw [h c (by simp), ih (fun x hx => h x (by simp [hx]))]

theorem flatMap_comp {α : Type} (s : List α) (f g : α → List α) :
    (s.flatMap f).flatMap g = s.flatMap (fun c => (f c).flatMap g) := by
  induction s with
  | nil => rfl
  | cons c rest ih =>
    simp only [List.flatMap_cons, List.flatMap_append, ih]

/-- The chained `replace` calls of `esc` replace every occurrence of the
three markup-special characters, character by character. -/
theorem escL_flatMap (s : List Char) : escL s = s.flatMap escChar := by
  have h1 : "&".data = ['&'] := rfl
  have h2 : "<".data = ['<'] := rfl
  have h3 : ">".data = ['>'] := rfl
  unfold escL
  rw [h1, h2, h3, pyReplace_single, pyReplace_single, pyReplace_single,
    flatMap_comp, flatMap_comp]
  refine flatMap_ext s _ _ (fun c _ => ?_)
  by_cases hc1 : c = '&'
  · subst hc1; rfl
  · by_cases hc2 : c = '<'
    · subst hc2; rfl
    · by_cases hc3 : c = '>'
      · subst hc3; rfl
      · simp [escChar, hc1, hc2, hc3]

theorem decodeEntities_nil : decodeEntities [] = [] := by
  rw [decodeEntities.eq_def]

theorem decodeEntities_amp (X : List Char) :
    decodeEntities ('&' :: 'a' :: 'm' :: 'p' :: ';' :: X)
      = '&' :: decodeEntities X := by
  rw [decodeEntities.eq_def]
  simp [leadsWith]

theorem decodeEntities_lt (X : List Char) :
    decodeEntities ('&' :: 'l' :: 't' :: ';' :: X) = '<' :: decodeEntities X := by
  rw [decodeEntities.eq_def]
  have hb : (('a' : Char) == 'l') = false := by decide
  simp [leadsWith, hb]

theorem decodeEntities_gt (X : List Char) :
    decodeEntities ('&' :: 'g' :: 't' :: ';' :: X) = '>' :: decodeEntities X := by
  rw [decodeEntities.eq_def]
  have hb1 : (('a' : Char) == 'g') = false := by decide
  have hb2 : (('l' : Char) == 'g') = false := by decide
  simp [leadsWith, hb1, hb2]

theorem decodeEntities_other (c : Char) (X : List Char) (h1 : c ≠ '&') :
    decodeEntities (c :: X) = c :: decodeEntities X := by
  rw [decodeEntities.eq_def]
  have hb : (('&' : Char) == c) = false := by
    rw [beq_eq_false_iff_ne]
    exact fun h => h1 h.symm
  simp [leadsWith, hb]

/-- Decoding inverts the per-character escaping. -/
theorem decode_flatMap_escChar (s : List Char) :
    decodeEntities (s.flatMap escChar) = s := by
  induction s with
  | nil => exact decodeEntities_nil
  | cons c rest ih =>
    by_cases hc1 : c = '&'
    · subst hc1
      have hflat : ('&' :: rest).flatMap escChar
          = '&' :: 'a' :: 'm' :: 'p' :: ';' :: rest.flatMap escChar := by
        simp [List.flatMap_cons, escChar]
      rw [hflat, decodeEntities_amp, ih]
    · by_cases hc2 : c = '<'
      · subst hc2
        have hflat : ('<' :: rest).flatMap escChar
            = '&' :: 'l' :: 't' :: ';' :: rest.flatMap escChar := by
          simp [List.flatMap_cons, escChar]
        rw [hflat, decodeEntities_lt, ih]
      · by_cases hc3 : c = '>'
        · subst hc3
          have hflat : ('>' :: rest).flatMap escChar
              = '&' :: 'g' :: 't' :: ';' :: rest.flatMap escChar := by
            simp [List.flatMap_cons, escChar]
          rw [hflat, decodeEntities_gt, ih]
        · have hflat : (c :: rest).flatMap escChar = c :: rest.flatMap escChar := by
            simp [List.flatMap_cons, escChar, hc1, hc2, hc3]
          rw [hflat, decodeEntities_other c _ hc1, ih]

/-- Full escaping round-trip on strings. -/
theorem decode_esc (s : String) : decodeEntities ((esc s).data) = s.data := by
  have : (esc s).data = escL s.data := rfl
  rw [this, escL_flatMap, decode_flatMap_escChar]

/-! ## The `.strip()` of the SVG template -/

theorem dropWhile_append_ws {p : Char → Bool} (ws X : List Char)
    (h : ∀ c ∈ ws, p c = true) :
    List.dropWhile p (ws ++ X) = List.dropWhile p X := by
  induction ws with
  | nil => rfl
  | cons c rest ih =>
    rw [List.cons_append, List.dropWhile_cons, if_pos (h c (by simp))]
    exact ih (fun x hx => h x (by simp [hx]))

theorem dropWhile_append_stop {p : Char → Bool} (l1 l2 : List Char)
    (h : List.dropWhile p l1 = l1) (hne : l1 ≠ []) :
    List.dropWhile p (l1 ++ l2) = l1 ++ l2 := by
  cases l1 with
  | nil => exact absurd rfl hne
  | cons c t =>
    have hc : p c = false := by
      by_contra hcc
      have hct : p c = true := by simpa using hcc
      rw [List.dropWhile_cons, if_pos hct] at h
      have hlen := congrArg List.length h
      have hle := dropWhile_length_le p t
      simp at hlen
      omega
    simp [List.dropWhile_cons, hc]

/-- Applying `.strip()` to the template keeps exactly the body between
the leading and trailing newline+indent. -/
theorem render_svg_string_eq (t : String) (a : Option String) (wm : Bool)
    (W H : Nat) :
    render_quote_svg_string t a wm W H = svg_core t a wm W H := by
  obtain ⟨X, hX⟩ : ∃ X : String, svg_core t a wm W H = svg_lit1 ++ X := by
    refine ⟨toString W ++ (svg_lit2 ++ (toString H ++ (svg_lit3 ++ (toString W ++
      (" " ++ (toString H ++ (svg_lit4 ++ (toString ((W : Int) - 160) ++
      (svg_lit5 ++ (svg_fg ++ (svg_lit6 ++ (esc t ++ (svg_between_text_author ++
      (author_text a ++ (svg_between_author_wm ++ (wm_markup wm W H ++
      svg_after_wm)))))))))))))))), ?_⟩
    unfold svg_core svg_before_text
    simp only [String.append_assoc]
  obtain ⟨P, hP⟩ : ∃ P : String, svg_core t a wm W H = P ++ svg_after_wm := by
    unfold svg_core
    exact ⟨_, rfl⟩
  refine str_data_inj ?_
  have hshow : (render_quote_svg_string t a wm W H).data
      = pyStripL (("\n    " ++ svg_core t a wm W H ++ "\n    ").data) := by
    unfold render_quote_svg_string pyStrip
    exact mk_data _
  rw [hshow]
  have hdata : ("\n    " ++ svg_core t a wm W H ++ "\n    ").data
      = ("\n    " : String).data
        ++ ((svg_core t a wm W H).data ++ ("\n    " : String).data) := by
    simp [String.data_append]
  rw [hdata]
  unfold pyStripL
  have hws5 : ∀ c ∈ ("\n    " : String).data, py_isspace c = true := by decide
  rw [dropWhile_append_ws _ _ hws5]
  have h1 : (svg_core t a wm W H).data ++ ("\n    " : String).data
      = svg_lit1.data ++ (X.data ++ ("\n    " : String).data) := by
    rw [hX, String.data_append, List.append_assoc]
  rw [h1, dropWhile_append_stop _ _ (by decide) (by decide), ← h1,
    List.reverse_append]
  have hws5r : ∀ c ∈ (("\n    " : String).data).reverse, py_isspace c = true := by
    decide
  rw [dropWhile_append_ws _ _ hws5r]
  have h2 : (svg_core t a wm W H).data.reverse
      = (svg_after_wm.data).reverse ++ (P.data).reverse := by
    rw [hP, String.data_append, List.reverse_append]
  rw [h2, dropWhile_append_stop _ _ (by decide) (by decide), ← h2,
    List.reverse_reverse]

/-! ## Splitting and whitespace collapsing -/

theorem collapseRun_nil : collapseRun [] = [] := by
  rw [collapseRun.eq_def]

theorem collapseRun_cons_sp (c : Char) (rest : List Char)
    (h : py_isspace c = true) :
    collapseRun (c :: rest)
      = if rest.dropWhile py_isspace = [] then []
        else ' ' :: collapseRun (rest.dropWhile py_isspace) := by
  rw [collapseRun.eq_def]
  simp [h]

theorem collapseRun_cons_word (c : Char) (rest : List Char)
    (h : py_isspace c = false) :
    collapseRun (c :: rest) = c :: collapseRun rest := by
  rw [collapseRun.eq_def]
  simp [h]

/-- The collapse function copies a maximal word segment unchanged. -/
theorem collapseRun_word (r : List Char) :
    collapseRun r = r.takeWhile notSp ++ collapseRun (r.dropWhile notSp) := by
  induction r with
  | nil => simp [collapseRun_nil]
  | cons c rest ih =>
    by_cases hc : py_isspace c
    · have h1 : notSp c = false := by simp [notSp, hc]
      rw [List.takeWhile_cons, if_neg (by simp [h1]), List.dropWhile_cons,
        if_neg (by simp [h1])]
      simp
    · have h1 : notSp c = true := by simp [notSp, hc]
      rw [collapseRun_cons_word c rest (by simpa using hc), List.takeWhile_cons,
        if_pos h1, List.dropWhile_cons, if_pos h1, ih]
      rfl

theorem pySplitL_nil : pySplitL [] = [] := by
  rw [pySplitL]
  simp

/-- Every token produced by `text.split()` is nonempty. -/
theorem pySplitL_words_ne (n : Nat) :
    ∀ l : List Char, l.length ≤ n → ∀ w ∈ pySplitL l, w ≠ [] := by
  induction n using Nat.strong_induction_on with
  | _ n ih =>
    intro l hl w hw
    rw [pySplitL] at hw
    by_cases h : l.dropWhile py_isspace = []
    · rw [dif_pos h] at hw
      simp at hw
    · rw [dif_neg h] at hw
      obtain ⟨c, rest, hd⟩ : ∃ c rest, l.dropWhile py_isspace = c :: rest := by
        cases hcase : l.dropWhile py_isspace with
        | nil => exact absurd hcase h
        | cons c rest => exact ⟨c, rest, rfl⟩
      have hc : py_isspace c = false := dropWhile_head_false _ _ hd
      have hcn : notSp c = true := by simp [notSp, hc]
      have hrest : rest.length + 1 ≤ l.length := by
        have hle := dropWhile_length_le py_isspace l
        rw [hd] at hle
        simpa using hle
      rcases List.mem_cons.mp hw with hw1 | hw2
      · subst hw1
        rw [hd, List.takeWhile_cons, if_pos hcn]
        simp
      · have harg : ((l.dropWhile py_isspace).dropWhile notSp).length ≤ rest.length := by
          rw [hd, List.dropWhile_cons, if_pos hcn]
          exact dropWhile_length_le _ _
        exact ih rest.length (by omega) _ harg w hw2

theorem pySplit_words_ne (s : String) : ∀ w ∈ pySplit s, w ≠ "" := by
  intro w hw
  obtain ⟨lw, hlw, rfl⟩ := List.mem_map.mp hw
  intro hcon
  exact pySplitL_words_ne s.data.length s.data le_rfl lw hlw
    (by simpa [str_data_nil_iff] using congrArg String.data hcon)

/-- Joining the split tokens with single spaces collapses the whitespace
of the original text. -/
theorem charJoin_pySplitL (n : Nat) :
    ∀ l : List Char, l.length ≤ n →
      charJoin (pySplitL l) = collapseRun (l.dropWhile py_isspace) := by
  induction n using Nat.strong_induction_on with
  | _ n ih =>
    intro l hl
    rw [pySplitL]
    by_cases h : l.dropWhile py_isspace = []
    · rw [dif_pos h, h, collapseRun_nil]
      rfl
    · rw [dif_neg h]
      obtain ⟨c, rest, hd⟩ : ∃ c rest, l.dropWhile py_isspace = c :: rest := by
        cases hcase : l.dropWhile py_isspace with
        | nil => exact absurd hcase h
        | cons c rest => exact ⟨c, rest, rfl⟩
      have hc : py_isspace c = false := dropWhile_head_false _ _ hd
      have hcn : notSp c = true := by simp [notSp, hc]
      have hrest : rest.length + 1 ≤ l.length := by
        have hle := dropWhile_length_le py_isspace l
        rw [hd] at hle
        simpa using hle
      rw [hd, collapseRun_word (c :: rest)]
      have hel : ((c :: rest).dropWhile notSp).length ≤ rest.length := by
        rw [List.dropWhile_cons, if_pos hcn]
        exact dropWhile_length_le _ _
      have ihe : charJoin (pySplitL ((c :: rest).dropWhile notSp))
          = collapseRun (((c :: rest).dropWhile notSp).dropWhile py_isspace) :=
        ih rest.length (by omega) _ hel
      by_cases hE : pySplitL ((c :: rest).dropWhile notSp) = []
      · have hdnil : ((c :: rest).dropWhile notSp).dropWhile py_isspace = [] := by
          by_contra hcon
          rw [pySplitL, dif_neg hcon] at hE
          simp at hE
        have hce : collapseRun ((c :: rest).dropWhile notSp) = [] := by
          cases hee : (c :: rest).dropWhile notSp with
          | nil => exact collapseRun_nil
          | cons c2 e2 =>
            have hc2 : notSp c2 = false := dropWhile_head_false notSp (c :: rest) hee
            have hc2s : py_isspace c2 = true := by
              simpa [notSp] using hc2
            rw [hee, List.dropWhile_cons, if_pos hc2s] at hdnil
            rw [collapseRun_cons_sp c2 e2 hc2s, if_pos hdnil]
        rw [hE, hce]
        simp [charJoin]
      · obtain ⟨w0, ws0, hE2⟩ : ∃ w0 ws0,
            pySplitL ((c :: rest).dropWhile notSp) = w0 :: ws0 := by
          cases hcase : pySplitL ((c :: rest).dropWhile notSp) with
          | nil => exact absurd hcase hE
          | cons w0 ws0 => exact ⟨w0, ws0, rfl⟩
        rw [hE2]
        have hchar : charJoin ((c :: rest).takeWhile notSp :: w0 :: ws0)
            = (c :: rest).takeWhile notSp ++ ' ' :: charJoin (w0 :: ws0) := rfl
        rw [hchar, ← hE2, ihe]
        congr 1
        cases hee : (c :: rest).dropWhile notSp with
        | nil =>
          rw [hee, pySplitL_nil] at hE
          exact absurd rfl hE
        | cons c2 e2 =>
          have hc2 : notSp c2 = false := dropWhile_head_false notSp (c :: rest) hee
          have hc2s : py_isspace c2 = true := by simpa [notSp] using hc2
          have hskip : (c2 :: e2).dropWhile py_isspace = e2.dropWhile py_isspace := by
            rw [List.dropWhile_cons, if_pos hc2s]
          have hdne : e2.dropWhile py_isspace ≠ [] := by
            intro hcc
            have hnil : ((c :: rest).dropWhile notSp).dropWhile py_isspace = [] := by
              rw [hee, hskip]
              exact hcc
            rw [pySplitL, dif_pos hnil] at hE
            exact hE rfl
          rw [hskip, collapseRun_cons_sp c2 e2 hc2s, if_neg hdne]

/-! ## The greedy wrap: lines are space-joins of consecutive words -/

theorem wrap_fold_spec (measure : String → Nat) (mw : Nat) :
    ∀ ws : List String, (∀ w ∈ ws, w ≠ "") →
    ∀ (groups : List (List String)) (curg : List String),
      (∀ g ∈ groups, g ≠ []) →
      (joinW curg = "" ↔ curg = []) →
      (∀ g ∈ groups, measure (joinW g) ≤ mw ∨ ∃ x, g = [x]) →
      (curg = [] ∨ measure (joinW curg) ≤ mw ∨ ∃ x, curg = [x]) →
      ∃ (groups2 : List (List String)) (curg2 : List String),
        ws.foldl (wrapStep measure mw) (groups.map joinW, joinW curg)
          = (groups2.map joinW, joinW curg2) ∧
        (∀ g ∈ groups2, g ≠ []) ∧
        (joinW curg2 = "" ↔ curg2 = []) ∧
        groups2.flatten ++ curg2 = groups.flatten ++ curg ++ ws ∧
        (∀ g ∈ groups2, measure (joinW g) ≤ mw ∨ ∃ x, g = [x]) ∧
        (curg2 = [] ∨ measure (joinW curg2) ≤ mw ∨ ∃ x, curg2 = [x]) := by
  intro ws
  induction ws with
  | nil =>
    intro _ groups curg hne hiff hwid hcinv
    exact ⟨groups, curg, by simp, hne, hiff, by simp, hwid, hcinv⟩
  | cons w ws2 ih =>
    intro hws groups curg hne hiff hwid hcinv
    have hw : w ≠ "" := hws w (by simp)
    have hws2 : ∀ x ∈ ws2, x ≠ "" := fun x hx => hws x (by simp [hx])
    rw [List.foldl_cons]
    by_cases hcur : curg = []
    · subst hcur
      have hstep : wrapStep measure mw (groups.map joinW, joinW []) w
          = (groups.map joinW, joinW [w]) := by
        show wrapStep measure mw (groups.map joinW, "") w = (groups.map joinW, w)
        unfold wrapStep
        simp
      rw [hstep]
      obtain ⟨g2, c2, h1, h2, h3, h4, h5, h6⟩ :=
        ih hws2 groups [w] hne
          ⟨fun hcon => absurd hcon hw, fun hcon => by simp at hcon⟩
          hwid (Or.inr (Or.inr ⟨w, rfl⟩))
      refine ⟨g2, c2, h1, h2, h3, ?_, h5, h6⟩
      rw [h4]
      simp
    · have hjc : joinW curg ≠ "" := fun hcon => hcur (hiff.mp hcon)
      by_cases hfit : measure (joinW curg ++ " " ++ w) ≤ mw
      · have hstep : wrapStep measure mw (groups.map joinW, joinW curg) w
            = (groups.map joinW, joinW (curg ++ [w])) := by
          unfold wrapStep
          rw [joinW_append_single curg w hcur]
          simp [hjc, hfit]
        rw [hstep]
        have hne2 : joinW (curg ++ [w]) ≠ "" := by
          rw [joinW_append_single curg w hcur]
          exact append_ne_empty_left _ (append_ne_empty_left _ hjc)
        obtain ⟨g2, c2, h1, h2, h3, h4, h5, h6⟩ :=
          ih hws2 groups (curg ++ [w]) hne
            ⟨fun hcon => absurd hcon hne2, fun hcon => by simp at hcon⟩
            hwid
            (Or.inr (Or.inl (by rw [joinW_append_single curg w hcur]; exact hfit)))
        refine ⟨g2, c2, h1, h2, h3, ?_, h5, h6⟩
        rw [h4]
        simp
      · have hstep : wrapStep measure mw (groups.map joinW, joinW curg) w
            = ((groups ++ [curg]).map joinW, joinW [w]) := by
          unfold wrapStep
          simp [hjc, hfit, List.map_append]
          rfl
        rw [hstep]
        have hne2 : ∀ g ∈ groups ++ [curg], g ≠ [] := by
          intro g hg
          rcases List.mem_append.mp hg with hg1 | hg2
          · exact hne g hg1
          · simp at hg2
            subst hg2
            exact hcur
        have hwid2 : ∀ g ∈ groups ++ [curg],
            measure (joinW g) ≤ mw ∨ ∃ x, g = [x] := by
          intro g hg
          rcases List.mem_append.mp hg with hg1 | hg2
          · exact hwid g hg1
          · simp at hg2
            subst hg2
            rcases hcinv with hcl | hrest
            · exact absurd hcl hcur
            · exact hrest
        obtain ⟨g2, c2, h1, h2, h3, h4, h5, h6⟩ :=
          ih hws2 (groups ++ [curg]) [w] hne2
            ⟨fun hcon => absurd hcon hw, fun hcon => by simp at hcon⟩
            hwid2 (Or.inr (Or.inr ⟨w, rfl⟩))
        refine ⟨g2, c2, h1, h2, h3, ?_, h5, h6⟩
        rw [h4]
        simp

/-- Every run of `wrapLines` partitions its words into nonempty
consecutive groups, each line being the single-space join of one group,
each group either fitting the usable width or being a single word. -/
theorem wrapLines_spec (measure : String → Nat) (mw : Nat)
    (words : List String) (hws : ∀ w ∈ words, w ≠ "") :
    ∃ allg : List (List String),
      allg.flatten = words ∧
      (∀ g ∈ allg, g ≠ []) ∧
      wrapLines measure mw words = allg.map joinW ∧
      (∀ g ∈ allg, measure (joinW g) ≤ mw ∨ ∃ x, g = [x]) := by
  obtain ⟨g2, c2, h1, h2, h3, h4, h5, h6⟩ :=
    wrap_fold_spec measure mw words hws [] [] (by simp)
      (by constructor <;> intro <;> rfl) (by simp) (Or.inl rfl)
  have h0 : (([], "") : List String × String)
      = (([] : List (List String)).map joinW, joinW []) := rfl
  unfold wrapLines
  rw [h0, h1]
  by_cases hc2 : c2 = []
  · subst hc2
    have hje : joinW ([] : List String) = "" := rfl
    rw [if_pos hje]
    refine ⟨g2, ?_, h2, rfl, h5⟩
    simpa using h4
  · have hje : joinW c2 ≠ "" := fun hcon => hc2 (h3.mp hcon)
    rw [if_neg hje]
    refine ⟨g2 ++ [c2], ?_, ?_, ?_, ?_⟩
    · rw [List.flatten_append]
      simpa using h4
    · intro g hg
      rcases List.mem_append.mp hg with hg1 | hg2
      · exact h2 g hg1
      · simp at hg2
        subst hg2
        exact hc2
    · simp [List.map_append]
    · intro g hg
      rcases List.mem_append.mp hg with hg1 | hg2
      · exact h5 g hg1
      · simp at hg2
        subst hg2
        rcases h6 with hcl | hrest
        · exact absurd hcl hc2
        · exact hrest

/-! ## The font-size search -/

/-- Membership in the descending step-2 size sequence started at `ms`:
`s` is reached from `ms` by steps of 2. -/
def inSeq (ms s : Nat) : Prop := s ≤ ms ∧ (ms - s) % 2 = 0

theorem fit_text_of_not_lt (measure : Nat → Nat) (mw ms : Nat)
    (h : ¬ 18 < ms) : fit_text measure mw ms = 18 := by
  rw [fit_text]
  simp [h]

theorem fit_text_of_fit (measure : Nat → Nat) (mw ms : Nat) (h : 18 < ms)
    (hfit : measure ms ≤ mw) : fit_text measure mw ms = ms := by
  rw [fit_text]
  simp [h, hfit]

theorem fit_text_of_not_fit (measure : Nat → Nat) (mw ms : Nat) (h : 18 < ms)
    (hfit : ¬ measure ms ≤ mw) :
    fit_text measure mw ms = fit_text measure mw (ms - 2) := by
  rw [fit_text]
  simp [h, hfit]

/-- The while loop of `fit_text` returns the largest size of the step-2
sequence, bounded below by 18, whose measured width fits — or 18 when no
such size exists. -/
theorem fit_text_spec (measure : Nat → Nat) (mw : Nat) :
    ∀ ms : Nat,
      (inSeq ms (fit_text measure mw ms) ∧ 18 ≤ fit_text measure mw ms ∧
        measure (fit_text measure mw ms) ≤ mw ∧
        ∀ s, inSeq ms s → 18 ≤ s → measure s ≤ mw → s ≤ fit_text measure mw ms)
      ∨ (fit_text measure mw ms = 18 ∧
        ∀ s, inSeq ms s → 18 ≤ s → ¬ measure s ≤ mw) := by
  intro ms
  induction ms using Nat.strong_induction_on with
  | _ ms ih =>
    by_cases h18 : 18 < ms
    · by_cases hfit : measure ms ≤ mw
      · left
        rw [fit_text_of_fit measure mw ms h18 hfit]
        exact ⟨⟨le_refl ms, by omega⟩, by omega, hfit, fun s hs _ _ => hs.1⟩
      · rw [fit_text_of_not_fit measure mw ms h18 hfit]
        have hstep : ∀ s, inSeq ms s → 18 ≤ s → s ≠ ms → inSeq (ms - 2) s := by
          intro s hs _ hne
          obtain ⟨hle, hmod⟩ := hs
          constructor <;> omega
        rcases ih (ms - 2) (by omega) with ⟨hin, h18r, hfitr, hmax⟩ | ⟨heq, hnone⟩
        · left
          obtain ⟨hle2, hmod2⟩ := hin
          refine ⟨⟨by omega, by omega⟩, h18r, hfitr, ?_⟩
          · intro s hs h18s hfits
            by_cases hse : s = ms
            · exact absurd (hse ▸ hfits) hfit
            · exact hmax s (hstep s hs h18s hse) h18s hfits
        · right
          refine ⟨heq, fun s hs h18s hfits => ?_⟩
          by_cases hse : s = ms
          · exact hfit (hse ▸ hfits)
          · exact hnone s (hstep s hs h18s hse) h18s hfits
    · rw [fit_text_of_not_lt measure mw ms h18]
      by_cases heq : ms = 18
      · subst heq
        by_cases hfit : measure 18 ≤ mw
        · left
          exact ⟨⟨le_refl 18, by omega⟩, le_refl 18, hfit, fun s hs _ _ => hs.1⟩
        · right
          refine ⟨rfl, fun s hs h18s hfits => ?_⟩
          obtain ⟨hle, _⟩ := hs
          have : s = 18 := by omega
          exact hfit (this ▸ hfits)
      · right
        refine ⟨rfl, fun s hs h18s hfits => ?_⟩
        obtain ⟨hle, _⟩ := hs
        omega

/-! ## The vertical layout loop -/

theorem draw_step_eval (M : Metrics) (path : String) (size width : Nat)
    (acc : List TextOp) (y : Int) (line : String) :
    draw_step M path size width (acc, y) line
      = (acc ++
          [{ x := Int.fdiv ((width : Int) - ((M.textsize path size line).1 : Int)) 2,
             y := y, s := line, fontPath := path, fontSize := size,
             fill := (30, 30, 30) }],
         y + ((M.textsize path size line).2 : Int) + 10) := rfl

theorem draw_fold (M : Metrics) (path : String) (size width : Nat) :
    ∀ (lines : List String) (acc : List TextOp) (y0 : Int),
      lines.foldl (draw_step M path size width) (acc, y0)
        = (acc ++ (lines.foldl (draw_step M path size width) ([], y0)).1,
           (lines.foldl (draw_step M path size width) ([], y0)).2) := by
  intro lines
  induction lines with
  | nil =>
    intro acc y0
    simp
  | cons l ls ih =>
    intro acc y0
    rw [List.foldl_cons, List.foldl_cons, draw_step_eval, draw_step_eval]
    conv_lhs => rw [ih]
    conv_rhs => rw [ih]
    simp [List.append_assoc]

theorem draw_quote_lines_nil (M : Metrics) (path : String) (size width : Nat)
    (y0 : Int) : draw_quote_lines M path size width y0 [] = ([], y0) := rfl

theorem draw_quote_lines_cons (M : Metrics) (path : String) (size width : Nat)
    (y0 : Int) (l : String) (ls : List String) :
    draw_quote_lines M path size width y0 (l :: ls)
      = ({ x := Int.fdiv ((width : Int) - ((M.textsize path size l).1 : Int)) 2,
           y := y0, s := l, fontPath := path, fontSize := size,
           fill := (30, 30, 30) }
          :: (draw_quote_lines M path size width
               (y0 + ((M.textsize path size l).2 : Int) + 10) ls).1,
         (draw_quote_lines M path size width
           (y0 + ((M.textsize path size l).2 : Int) + 10) ls).2) := by
  unfold draw_quote_lines
  rw [List.foldl_cons, draw_step_eval, draw_fold]
  simp

theorem draw_quote_lines_length (M : Metrics) (path : String) (size width : Nat) :
    ∀ (lines : List String) (y0 : Int),
      (draw_quote_lines M path size width y0 lines).1.length = lines.length := by
  intro lines
  induction lines with
  | nil => intro y0; rfl
  | cons l ls ih =>
    intro y0
    rw [draw_quote_lines_cons]
    simp [ih]

/-- Closed form for the `k`-th drawn quote line: its `y` is the starting
`y0` plus the heights-plus-10 of all earlier lines. -/
theorem draw_quote_lines_get (M : Metrics) (path : String) (size width : Nat) :
    ∀ (lines : List String) (y0 : Int) (k : Nat),
      ((draw_quote_lines M path size width y0 lines).1)[k]?
        = (lines[k]?).map (fun line =>
            { x := Int.fdiv ((width : Int) - ((M.textsize path size line).1 : Int)) 2,
              y := y0 + ((lines.take k).map
                    (fun l => ((M.textsize path size l).2 : Int) + 10)).sum,
              s := line, fontPath := path, fontSize := size,
              fill := (30, 30, 30) }) := by
  intro lines
  induction lines with
  | nil =>
    intro y0 k
    simp [draw_quote_lines_nil]
  | cons l ls ih =>
    intro y0 k
    rw [draw_quote_lines_cons]
    cases k with
    | zero => simp
    | succ k2 =>
      simp only [List.getElem?_cons_succ, List.take_succ_cons, List.map_cons,
        List.sum_cons]
      rw [ih]
      cases hk : ls[k2]? with
      | none => simp
      | some line =>
        simp only [Option.map]
        congr 2
        omega

/-! ## Claim theorems -/

/-- C1: for every quote input, if the raster path raises (modelled as
`rasterAttempt = none`) or the raster graphics dependency is unavailable
(`pilAvailable = false`), `serve_quote_image` returns exactly the
(bytes, mimeType) pair of the vector renderer, with the SVG MIME type;
the raster error is absorbed, never propagated. -/
theorem c1_dispatch_fallback (pilAvailable : Bool)
    (rasterAttempt : Option (List Nat × String)) (text : String)
    (author : Option String) (watermark : Bool)
    (h : pilAvailable = false ∨ rasterAttempt = none) :
    serve_quote_image pilAvailable rasterAttempt text author watermark
      = render_quote_svg text author watermark ∧
    (serve_quote_image pilAvailable rasterAttempt text author watermark).2
      = "image/svg+xml" := by
  have hnone : (if pilAvailable then rasterAttempt else none)
      = (none : Option (List Nat × String)) := by
    rcases h with h | h
    · simp [h]
    · cases pilAvailable <;> simp [h]
  constructor
  · unfold serve_quote_image
    rw [hnone]
  · unfold serve_quote_image
    rw [hnone]
    rfl

/-- Witness for C1 at a concrete input (PIL unavailable). -/
theorem c1_dispatch_fallback_witness :
    (false = false ∨ (none : Option (List Nat × String)) = none) ∧
    (serve_quote_image false none "Dream big." (some "Anon") true
        = render_quote_svg "Dream big." (some "Anon") true ∧
      (serve_quote_image false none "Dream big." (some "Anon") true).2
        = "image/svg+xml") :=
  ⟨Or.inl rfl,
   c1_dispatch_fallback false none "Dream big." (some "Anon") true (Or.inl rfl)⟩

/-- C2: the font size chosen by the renderer (`fit_text` started at
`int(width*0.10)` against the usable width) is the largest size of the
descending step-2 sequence, bounded below by 18, whose measured
multiline width fits; if no size of the range fits, it is 18. -/
theorem c2_font_size_largest_fitting (M : Metrics) (fsExists : String → Bool)
    (text : String) (width : Nat) :
    (inSeq (width * 10 / 100) (quote_size_of M fsExists text width) ∧
      18 ≤ quote_size_of M fsExists text width ∧
      (M.multiline_textsize (quote_font_path fsExists)
          (quote_size_of M fsExists text width) text).1 ≤ max_text_width_of width ∧
      ∀ s, inSeq (width * 10 / 100) s → 18 ≤ s →
        (M.multiline_textsize (quote_font_path fsExists) s text).1
            ≤ max_text_width_of width →
        s ≤ quote_size_of M fsExists text width)
    ∨ (quote_size_of M fsExists text width = 18 ∧
      ∀ s, inSeq (width * 10 / 100) s → 18 ≤ s →
        ¬ (M.multiline_textsize (quote_font_path fsExists) s text).1
            ≤ max_text_width_of width) :=
  fit_text_spec
    (fun s => (M.multiline_textsize (quote_font_path fsExists) s text).1)
    (max_text_width_of width) (width * 10 / 100)

/-- C3: the greedy wrap of any input text partitions the split words into
nonempty consecutive groups (no word is ever split across lines — every
line is the space-join of whole consecutive words), and every produced
line either fits the usable width or is a single (oversized) word of the
input. -/
theorem c3_wrap_never_splits_words (measure : String → Nat) (mw : Nat)
    (text : String) :
    ∃ allg : List (List String),
      allg.flatten = pySplit text ∧
      (∀ g ∈ allg, g ≠ []) ∧
      wrapLines measure mw (pySplit text) = allg.map joinW ∧
      ∀ line ∈ wrapLines measure mw (pySplit text),
        measure line ≤ mw ∨ line ∈ pySplit text := by
  obtain ⟨allg, hflat, hne, hlines, hwid⟩ :=
    wrapLines_spec measure mw (pySplit text) (pySplit_words_ne text)
  refine ⟨allg, hflat, hne, hlines, ?_⟩
  intro line hline
  rw [hlines] at hline
  obtain ⟨g, hg, rfl⟩ := List.mem_map.mp hline
  rcases hwid g hg with hfit | ⟨x, rfl⟩
  · exact Or.inl hfit
  · right
    show joinW [x] ∈ pySplit text
    have hx : x ∈ allg.flatten := List.mem_flatten.mpr ⟨[x], hg, by simp⟩
    rw [hflat] at hx
    exact hx

theorem pySplit_empty : pySplit "" = [] := by
  unfold pySplit
  rw [show ("" : String).data = [] from rfl, pySplitL_nil]
  rfl

theorem wrapLines_nil (measure : String → Nat) (mw : Nat) :
    wrapLines measure mw [] = [] := rfl

theorem quote_lines_empty (M : Metrics) (fsExists : String → Bool)
    (width : Nat) : quote_lines M fsExists "" width = [] := by
  unfold quote_lines
  rw [pySplit_empty, wrapLines_nil]

/-- C4 counterexample: on empty text the wrap yields zero lines, but the
computed text block height is `sum([]) + (0 - 1) * 10 = -10`, not the 0
the claim states. -/
theorem c4_empty_block_height_counterexample :
    quote_block_height M0 (quote_font_path fs0) (quote_size_of M0 fs0 "" 1200)
        (quote_lines M0 fs0 "" 1200) = -10 ∧
    quote_block_height M0 (quote_font_path fs0) (quote_size_of M0 fs0 "" 1200)
        (quote_lines M0 fs0 "" 1200) ≠ 0 := by
  rw [quote_lines_empty]
  unfold quote_block_height
  norm_num

/-- C4 amended: rendering the empty string with no author and watermark
disabled draws nothing: the split and the wrap yield zero lines, no quote
line, author line or watermark is recorded (in either renderer), and the
computed block height is `-10` (zero heights plus `(0 - 1) * 10`), not 0;
rendering is total, so it cannot crash. -/
theorem c4_empty_render_amended (M : Metrics) (fsExists : String → Bool)
    (gidx : Fin GRADIENTS.length) (q : String) :
    pySplit "" = [] ∧
    quote_lines M fsExists "" DEFAULT_WIDTH = [] ∧
    quote_block_height M (quote_font_path fsExists)
        (quote_size_of M fsExists "" DEFAULT_WIDTH)
        (quote_lines M fsExists "" DEFAULT_WIDTH) = -10 ∧
    (render_quote_image_with_pil M fsExists gidx "" none false q).quoteOps = [] ∧
    (render_quote_image_with_pil M fsExists gidx "" none false q).authorOp = none ∧
    (render_quote_image_with_pil M fsExists gidx "" none false q).watermarkOp = none ∧
    author_text none = "" ∧
    wm_markup false DEFAULT_WIDTH DEFAULT_HEIGHT = "" := by
  refine ⟨pySplit_empty, quote_lines_empty M fsExists DEFAULT_WIDTH, ?_, ?_, ?_, ?_, rfl, rfl⟩
  · rw [quote_lines_empty]
    unfold quote_block_height
    norm_num
  · show (render_quote_image_with_pil M fsExists gidx "" none false q).quoteOps = []
    unfold render_quote_image_with_pil
    rw [quote_lines_empty]
    rfl
  · unfold render_quote_image_with_pil
    rfl
  · unfold render_quote_image_with_pil
    rfl

/-- C5: the vector renderer passes `text` (and a truthy `author`) through
`esc`, which replaces every occurrence of the three markup-special
characters by its entity (character-by-character image of the chained
replaces); the escaped strings are embedded verbatim in the SVG document;
and decoding the entities reconstructs the original strings exactly. -/
theorem c5_escaping_roundtrip (text author : String) (wm : Bool)
    (W H : Nat) (ha : author ≠ "") :
    (esc text).data = text.data.flatMap escChar ∧
    (∃ pre post, (render_quote_svg_string text (some author) wm W H).data
        = pre ++ (esc text).data ++ post) ∧
    (∃ pre post, (render_quote_svg_string text (some author) wm W H).data
        = pre ++ (esc author).data ++ post) ∧
    decodeEntities ((esc text).data) = text.data ∧
    decodeEntities ((esc author).data) = author.data := by
  refine ⟨escL_flatMap text.data, ?_, ?_, decode_esc text, decode_esc author⟩
  · rw [render_svg_string_eq]
    refine ⟨(svg_before_text W H).data,
      (svg_between_text_author ++ author_text (some author)
        ++ svg_between_author_wm ++ wm_markup wm W H ++ svg_after_wm).data, ?_⟩
    unfold svg_core
    simp [String.data_append, List.append_assoc]
  · rw [render_svg_string_eq]
    have hat : author_text (some author)
        = svg_author_lit1 ++ svg_sub ++ svg_author_lit2 ++ esc author
            ++ "</text>" := by
      unfold author_text
      simp [ha]
    refine ⟨(svg_before_text W H ++ esc text ++ svg_between_text_author
        ++ svg_author_lit1 ++ svg_sub ++ svg_author_lit2).data,
      (("</text>" : String) ++ svg_between_author_wm ++ wm_markup wm W H
        ++ svg_after_wm).data, ?_⟩
    unfold svg_core
    rw [hat]
    simp [String.data_append, List.append_assoc]

/-- Witness for C5 at concrete adversarial strings. -/
theorem c5_escaping_roundtrip_witness :
    ("x&y" : String) ≠ "" ∧
    ((esc "a<b&c>").data = ("a<b&c>" : String).data.flatMap escChar ∧
    (∃ pre post, (render_quote_svg_string "a<b&c>" (some "x&y") true 1200 1500).data
        = pre ++ (esc "a<b&c>").data ++ post) ∧
    (∃ pre post, (render_quote_svg_string "a<b&c>" (some "x&y") true 1200 1500).data
        = pre ++ (esc "x&y").data ++ post) ∧
    decodeEntities ((esc "a<b&c>").data) = ("a<b&c>" : String).data ∧
    decodeEntities ((esc "x&y").data) = ("x&y" : String).data) :=
  ⟨by decide, c5_escaping_roundtrip "a<b&c>" "x&y" true 1200 1500 (by decide)⟩

/-- C6: the raster renderer computes the block height as the sum of the
line heights plus 10 pixels of spacing per gap (`N - 1` gaps), starts the
block at `y = (height - totalHeight) // 2`, and places the `k`-th line at
that start plus the heights-plus-10 of all earlier lines (closed form of
"each subsequent line at the previous y plus its height plus 10"). -/
theorem c6_vertical_centering (M : Metrics) (fsExists : String → Bool)
    (gidx : Fin GRADIENTS.length) (text : String) (author : Option String)
    (watermark : Bool) (q : String) (w h : Nat) (k : Nat) :
    quote_block_height M (quote_font_path fsExists)
        (quote_size_of M fsExists text w) (quote_lines M fsExists text w)
      = ((quote_lines M fsExists text w).map
          (fun l => ((M.textsize (quote_font_path fsExists)
            (quote_size_of M fsExists text w) l).2 : Int))).sum
        + 10 * (((quote_lines M fsExists text w).length : Int) - 1) ∧
    (render_quote_image_with_pil M fsExists gidx text author watermark q w h).quoteOps.length
      = (quote_lines M fsExists text w).length ∧
    (render_quote_image_with_pil M fsExists gidx text author watermark q w h).quoteOps[k]?
      = ((quote_lines M fsExists text w)[k]?).map (fun line =>
          { x := Int.fdiv ((w : Int) - ((M.textsize (quote_font_path fsExists)
                (quote_size_of M fsExists text w) line).1 : Int)) 2,
            y := Int.fdiv ((h : Int) - quote_block_height M (quote_font_path fsExists)
                  (quote_size_of M fsExists text w) (quote_lines M fsExists text w)) 2
              + (((quote_lines M fsExists text w).take k).map
                  (fun l => ((M.textsize (quote_font_path fsExists)
                    (quote_size_of M fsExists text w) l).2 : Int) + 10)).sum,
            s := line, fontPath := quote_font_path fsExists,
            fontSize := quote_size_of M fsExists text w,
            fill := (30, 30, 30) }) := by
  have hops : (render_quote_image_with_pil M fsExists gidx text author watermark q w h).quoteOps
      = (draw_quote_lines M (quote_font_path fsExists)
          (quote_size_of M fsExists text w) w
          (Int.fdiv ((h : Int) - quote_block_height M (quote_font_path fsExists)
            (quote_size_of M fsExists text w) (quote_lines M fsExists text w)) 2)
          (quote_lines M fsExists text w)).1 := rfl
  refine ⟨?_, ?_, ?_⟩
  · unfold quote_block_height
    ring
  · rw [hops, draw_quote_lines_length]
  · rw [hops, draw_quote_lines_get]

/-- C7: the raster path never uses `quality`: two calls differing only in
the quality string (same metrics, fonts and gradient choice) produce the
same composed canvas — hence identical encoded bytes — and the same MIME
type. -/
theorem c7_quality_unused (M : Metrics) (fsExists : String → Bool)
    (gidx : Fin GRADIENTS.length) (text : String) (author : Option String)
    (watermark : Bool) (q1 q2 : String) (w h : Nat) :
    render_quote_image_with_pil M fsExists gidx text author watermark q1 w h
      = render_quote_image_with_pil M fsExists gidx text author watermark q2 w h ∧
    (render_quote_image_with_pil M fsExists gidx text author watermark q1 w h).mime
      = (render_quote_image_with_pil M fsExists gidx text author watermark q2 w h).mime :=
  ⟨rfl, rfl⟩

/-- C8: rendering is deterministic: two raster calls with identical
arguments and the same gradient-palette selection (the only randomness)
return equal results, and the vector renderer, which consumes no
randomness at all, returns byte-identical output for identical
arguments. -/
theorem c8_idempotent_render (M : Metrics) (fsExists : String → Bool)
    (g1 g2 : Fin GRADIENTS.length) (text : String) (author : Option String)
    (watermark : Bool) (q : String) (w h : Nat) (hg : g1 = g2) :
    render_quote_image_with_pil M fsExists g1 text author watermark q w h
      = render_quote_image_with_pil M fsExists g2 text author watermark q w h ∧
    render_quote_svg text author watermark w h
      = render_quote_svg text author watermark w h := by
  subst hg
  exact ⟨rfl, rfl⟩

/-- Witness for C8 at a concrete input with a fixed gradient index. -/
theorem c8_idempotent_render_witness :
    (⟨0, by decide⟩ : Fin GRADIENTS.length) = ⟨0, by decide⟩ ∧
    (render_quote_image_with_pil M0 fs0 ⟨0, by decide⟩ "Stay consistent."
        (some "Anon") true "standard"
      = render_quote_image_with_pil M0 fs0 ⟨0, by decide⟩ "Stay consistent."
        (some "Anon") true "standard" ∧
    render_quote_svg "Stay consistent." (some "Anon") true 1200 1500
      = render_quote_svg "Stay consistent." (some "Anon") true 1200 1500) :=
  ⟨rfl, c8_idempotent_render M0 fs0 ⟨0, by decide⟩ ⟨0, by decide⟩
    "Stay consistent." (some "Anon") true "standard" 1200 1500 rfl⟩

/-- C9: an empty-string author behaves exactly like a null author in both
renderers (Python truthiness of `if author:`), and in general the
attribution is present if and only if the author value is truthy. -/
theorem c9_empty_author_like_none (M : Metrics) (fsExists : String → Bool)
    (gidx : Fin GRADIENTS.length) (text : String) (watermark : Bool)
    (q : String) (w h : Nat) (author : Option String) :
    render_quote_image_with_pil M fsExists gidx text (some "") watermark q w h
      = render_quote_image_with_pil M fsExists gidx text none watermark q w h ∧
    render_quote_svg text (some "") watermark w h
      = render_quote_svg text none watermark w h ∧
    ((render_quote_image_with_pil M fsExists gidx text author watermark q w h).authorOp
        ≠ none ↔ authorTruthy author = true) ∧
    (author_text author ≠ "" ↔ authorTruthy author = true) := by
  refine ⟨rfl, rfl, ?_, ?_⟩
  · cases haut : authorTruthy author with
    | false =>
      have hnone : (render_quote_image_with_pil M fsExists gidx text author
          watermark q w h).authorOp = none := by
        unfold render_quote_image_with_pil
        simp [haut]
      simp [hnone]
    | true =>
      have hsome : (render_quote_image_with_pil M fsExists gidx text author
          watermark q w h).authorOp ≠ none := by
        unfold render_quote_image_with_pil
        simp [haut]
      simp [hsome]
  · cases author with
    | none => simp [author_text, authorTruthy]
    | some a =>
      by_cases hae : a = ""
      · subst hae
        simp [author_text, authorTruthy]
      · have hat : author_text (some a)
            = svg_author_lit1 ++ svg_sub ++ svg_author_lit2 ++ esc a
                ++ "</text>" := by
          unfold author_text
          simp [hae]
        have hne : author_text (some a) ≠ "" := by
          rw [hat]
          exact append_ne_empty_left _
            (append_ne_empty_left _
              (append_ne_empty_left _
                (append_ne_empty_left _ (by decide))))
        simp [hne, authorTruthy, hae]

/-- C10: the wrap normalizes whitespace: for every text, the produced
lines joined by single spaces equal the input with every whitespace run
collapsed to a single space and leading/trailing whitespace removed. -/
theorem c10_wrap_collapses_whitespace (measure : String → Nat) (mw : Nat)
    (text : String) :
    joinW (wrapLines measure mw (pySplit text)) = spec_collapse_ws text := by
  obtain ⟨allg, hflat, hne, hlines, _⟩ :=
    wrapLines_spec measure mw (pySplit text) (pySplit_words_ne text)
  rw [hlines, joinW_map_joinW allg hne, hflat]
  refine str_data_inj ?_
  unfold pySplit
  rw [joinW_map_mk, charJoin_pySplitL text.data.length text.data le_rfl]
  exact (mk_data _).symm

end QuoteMachine
